import Mathlib

/-!
# Generalised rock-paper-scissors (`src/index.js`)

A shallow embedding of the relation matrix (`Table`), the move-set validator
(`hasDuplicates`, `isEvenCount`, `isValid`), the round resolution (`GameRules`), the
commitment (`HMAC`) and the interactive round (`startGame`, `main`) of `src/index.js`,
followed by the properties proved about them.

Conventions of the embedding:
* a JavaScript array is a `List`; the matrix is a `List (List Int)`;
* `undefined` is `none` of an `Option`; a thrown `TypeError` is `none` of an outer `Option`;
* library calls (`sha3_256`, `crypto.randomBytes`, `Random.integer`, `Number(...)`,
  `readline.question`) are parameters of the functions that use them.
-/

namespace RPS

/-! ## Constants (index.js 9-26) -/

def EXIT_COMMAND : String := "0"
def HELP_COMMAND : String := "?"

def DRAW : String := "Draw"
def WIN : String := "Win"
def LOSE : String := "Lose"

def DRAW_RESULT : String := "It's a " ++ DRAW
def WIN_RESULT : String := "You " ++ WIN ++ "!"
def LOSE_RESULT : String := "You " ++ LOSE ++ " :("

/-! ## Table (index.js 87-126) -/

/-- The assignment `matrix[i][k] = v` (index.js 106-107). Row `i` is replaced by a copy with
slot `k` overwritten. In `fillMatrix` both `i` and `k` are always below `size`, so the
JavaScript behaviours for an absent row (a `TypeError`) and for a slot past the end (the array
grows) never arise; here such a write leaves the matrix unchanged. -/
def writeCell (m : List (List Int)) (i k : Nat) (v : Int) : List (List Int) :=
  match m[i]? with
  | some row => m.set i (row.set k v)
  | none => m

/-- The read `matrix[i][k]`: `none` when the row or the slot is absent. -/
def entry (m : List (List Int)) (i k : Nat) : Option Int :=
  (m[i]?).bind (fun row => row[k]?)

/-- The expression `(i + j) % this.size` (index.js 104). -/
def winIndex (size i j : Nat) : Nat :=
  (i + j) % size

/-- The expression `(i - j + this.size) % this.size` (index.js 105), computed over the integers
with the truncating remainder of JavaScript. -/
def loseIndex (size i j : Nat) : Nat :=
  (Int.tmod ((i : Int) - (j : Int) + (size : Int)) (size : Int)).toNat

/-- Method `createEmptyMatrix` (index.js 97-99): `size` separate rows of `size` zeros. -/
def Table.createEmptyMatrix (size : Nat) : List (List Int) :=
  List.replicate size (List.replicate size 0)

/-- Body of the inner loop (index.js 104-107) for one `i` and one `j`. -/
def Table.fillStep (size i : Nat) (m : List (List Int)) (j : Nat) : List (List Int) :=
  writeCell (writeCell m i (winIndex size i j) 1) i (loseIndex size i j) (-1)

/-- The inner loop `for (let j = 1; j <= this.halfSize; j++)` (index.js 103-108). -/
def Table.fillRow (size halfSize : Nat) (m : List (List Int)) (i : Nat) : List (List Int) :=
  (List.range' 1 halfSize).foldl (Table.fillStep size i) m

/-- Method `fillMatrix` (index.js 101-111): the outer loop over `i = 0 .. size - 1`, run on
the matrix held in `this.matrix`. -/
def Table.fillMatrix (size halfSize : Nat) (matrix : List (List Int)) : List (List Int) :=
  (List.range size).foldl (Table.fillRow size halfSize) matrix

/-- The mapping of `convertMatrix` (index.js 113-117) on one cell. -/
def Table.convertCell (v : Int) : String :=
  if v = 0 then DRAW else if v = 1 then WIN else LOSE

/-- The fields a `Table` holds after its constructor has run (index.js 88-95). `matrix` and
`filledMatrix` are the same array in the source, so only `filledMatrix` is kept. -/
structure Table where
  elements : List String
  size : Nat
  halfSize : Nat
  filledMatrix : List (List Int)
  convertedMatrix : List (List String)

/-- Constructor `new Table(elements)` (index.js 88-95). -/
def Table.new (elements : List String) : Table :=
  let size := elements.length
  let halfSize := size / 2
  let filled := Table.fillMatrix size halfSize (Table.createEmptyMatrix size)
  { elements := elements
    size := size
    halfSize := halfSize
    filledMatrix := filled
    convertedMatrix := filled.map (fun e => e.map Table.convertCell) }

/-! ## Closed form of the filled matrix (used in the proofs only) -/

/-- Distance from ordinal `i` forward to ordinal `k` around a circle of `n` positions. -/
def offset (n i k : Nat) : Nat :=
  if i ≤ k then k - i else k + n - i

/-- Value of cell `(i, k)` after the first `t` rounds of the inner loop for row `i`. -/
def cellUpTo (n i t k : Nat) : Int :=
  if offset n i k = 0 then 0
  else if n - offset n i k ≤ t then -1
  else if offset n i k ≤ t then 1
  else 0

/-- Value of cell `(i, k)` in the finished matrix. -/
def cell (n i k : Nat) : Int :=
  cellUpTo n i (n / 2) k

/-- Matrix `m` holds the value `f i k` in every cell `(i, k)` of the `n` by `n` square. -/
def Holds (n : Nat) (m : List (List Int)) (f : Nat → Nat → Int) : Prop :=
  ∀ i k, i < n → k < n → entry m i k = some (f i k)

/-! ## Move-set validation (index.js 128-139) -/

/-- Adding one value to a JavaScript `Set`: a value already present is not added again. -/
def setAdd (s : List String) (e : String) : List String :=
  if e ∈ s then s else s ++ [e]

/-- The members of `new Set(elements)` in insertion order (index.js 129). -/
def newSet (elements : List String) : List String :=
  elements.foldl setAdd []

/-- Function `hasDuplicates` (index.js 128-131): `uniqueElements.size !== elements.length`. -/
def hasDuplicates (elements : List String) : Bool :=
  (newSet elements).length != elements.length

/-- Function `isEvenCount` (index.js 133-135). -/
def isEvenCount (elements : List String) : Bool :=
  elements.length % 2 == 0

/-- Function `isValid` (index.js 137-139). -/
def isValid (elements : List String) : Bool :=
  !isEvenCount elements && !hasDuplicates elements

/-! ## GameRules (index.js 74-85) -/

/-- Search of `Array.prototype.indexOf` from position `k` on: the position of the first element
strictly equal to `s`, or `-1`. -/
def indexOfFrom (s : String) : List String → Nat → Int
  | [], _ => -1
  | e :: rest, k => if e = s then (k : Int) else indexOfFrom s rest (k + 1)

/-- The call `elements.indexOf(x)` on an array of strings. The searched value may be `undefined`
(`none`), which is strictly equal to no string. -/
def indexOf (elements : List String) : Option String → Int
  | none => -1
  | some s => indexOfFrom s elements 0

/-- The read `array[k]` for an integer `k`: `undefined` (`none`) when `k` is negative or past
the end. -/
def jsIndex {α : Type} (l : List α) (k : Int) : Option α :=
  if 0 ≤ k then l[k.toNat]? else none

/-- The fields a `GameRules` holds after its constructor has run (index.js 75-80); `result` is
`none` when the cell read is `undefined`. -/
structure GameRules where
  matrix : List (List Int)
  indexPlayer : Int
  indexComputer : Int
  result : Option Int

/-- Constructor `new GameRules(elements, playerMove, computerMove)` (index.js 75-80). It yields
`none` when line 79 throws: `this.matrix[this.indexPlayer]` is `undefined` and reading a
property of it is a `TypeError`. -/
def GameRules.new (elements : List String) (playerMove computerMove : Option String) :
    Option GameRules :=
  let matrix := (Table.new elements).filledMatrix
  let indexPlayer := indexOf elements playerMove
  let indexComputer := indexOf elements computerMove
  match jsIndex matrix indexPlayer with
  | none => none
  | some row =>
    some { matrix := matrix
           indexPlayer := indexPlayer
           indexComputer := indexComputer
           result := jsIndex row indexComputer }

/-- Method `getWinner` (index.js 82-84). -/
def GameRules.getWinner (g : GameRules) : String :=
  if g.result = some 0 then DRAW_RESULT
  else if g.result = some 1 then WIN_RESULT
  else LOSE_RESULT

/-- The expression `new GameRules(elements, playerMove, computerMove).getWinner()`; `none` when
the constructor throws. -/
def getWinner (elements : List String) (playerMove computerMove : Option String) :
    Option String :=
  (GameRules.new elements playerMove computerMove).map GameRules.getWinner

/-! ## HMAC, Key, ComputerMove (index.js 28-72) -/

/-- Conversion of a value to a string inside a template literal: `undefined` prints as the
text `undefined`. -/
def jsString : Option String → String
  | none => "undefined"
  | some s => s

/-- The template literal that `generateHMAC` hashes (index.js 36): key, then value, with
nothing in between. -/
def HMAC.message (key : String) (value : Option String) : String :=
  key ++ jsString value

/-- Method `generateHMAC` (index.js 35-37); the library function `sha3_256` is a parameter. -/
def HMAC.generateHMAC (sha3_256 : String → String) (key : String) (value : Option String) :
    String :=
  sha3_256 (HMAC.message key value)

/-- The expression `new ComputerMove(elements).getMove()` (index.js 59-63, 69-71) when the call
`new Random().integer(0, elements.length - 1)` returns `draw`. -/
def ComputerMove.getMove (elements : List String) (draw : Nat) : Option String :=
  elements[draw]?

/-! ## The round (index.js 141-179) -/

/-- What a run shows, one constructor per `console.log`, prompt or uncaught exception. -/
inductive Event where
  /-- Line 159, the published digest. -/
  | hmac (digest : String)
  /-- Line 162, the menu printed by `printAvailableMoves`. -/
  | availableMoves
  /-- Line 163, one call of `readline.question` and the line it returned. -/
  | question (answer : String)
  /-- Line 167, the help table. -/
  | table
  /-- Line 149, the player's move and the computer's move. -/
  | moves (playerMove computerMove : Option String)
  /-- Line 150, the message of `getWinner`. -/
  | winner (message : String)
  /-- Line 151, the revealed key. -/
  | hmacKey (key : String)
  /-- Lines 172 and 177, the error message. -/
  | error
  /-- The uncaught `TypeError` of line 79, which ends the process. -/
  | typeError
  deriving DecidableEq, Repr

/-- The read `args[x]` for a number `x` (`none` when `x` is `NaN`): an element only when `x` is a
non-negative integer below the length. -/
def jsIndexNum {α : Type} (l : List α) (x : Option Rat) : Option α :=
  match x with
  | none => none
  | some q => if q.isInt ∧ 0 ≤ q then l[q.num.toNat]? else none

/-- The read `args[x - 1]` for a number `x` (index.js 147), with the subtraction carried out on
the numerator: `x - 1` is a non-negative integer exactly when `x` is an integer and `1 ≤ x`.
Theorem `jsIndexMinusOne_eq` shows it equal to `jsIndexNum` at `x - 1`. -/
def jsIndexMinusOne {α : Type} (l : List α) (x : Option Rat) : Option α :=
  match x with
  | none => none
  | some q => if q.isInt ∧ 1 ≤ q then l[(q.num - 1).toNat]? else none

/-- Function `printGameResult` (index.js 146-152). `toNumber` is the conversion `Number(...)`
that `playerMoveIndex - 1` applies to the line read; `none` stands for `NaN`. A thrown
constructor ends the process before anything is printed. -/
def printGameResult (toNumber : String → Option Rat) (args : List String)
    (playerMoveIndex : String) (computerMove : Option String) (hmacKey : String) : List Event :=
  let playerMove := jsIndexMinusOne args (toNumber playerMoveIndex)
  match GameRules.new args playerMove computerMove with
  | none => [Event.typeError]
  | some game =>
    [Event.moves playerMove computerMove, Event.winner game.getWinner, Event.hmacKey hmacKey]

/-- A conversion that agrees with `Number(s)` on every string `s` of decimal digits (the empty
string included, which converts to `0`) and answers `NaN` on every other string; `Number`
itself also converts signs, fractions, exponents and surrounding blanks. It serves as the
argument `toNumber` when a run is evaluated on lines of digits. -/
def digitsToNumber (s : String) : Option Rat :=
  if s.data.all Char.isDigit then
    some ((s.data.foldl (fun n c => 10 * n + (c.toNat - 48)) 0 : Nat) : Rat)
  else none

/-- Value of a list of decimal digits, read left to right. -/
def digitsValue (cs : List Char) : Nat :=
  cs.foldl (fun n c => 10 * n + (c.toNat - 48)) 0

/-- A conversion that agrees with `Number(s)` on every string `s` made of decimal digits,
optionally followed by a point and decimal digits, whose value is a binary64 number (such as
`3`, `1.5` or the empty string, which converts to `0`), and answers `NaN` on every string of
another shape. `Number` rounds the decimals that are not binary64 numbers and also converts
signs, exponents and surrounding blanks; this conversion does neither. It serves as the
argument `toNumber` when a run is evaluated on a line with a fraction. -/
def decimalToNumber (s : String) : Option Rat :=
  let whole := s.data.takeWhile Char.isDigit
  match s.data.dropWhile Char.isDigit with
  | [] => some (digitsValue whole : Rat)
  | c :: fraction =>
    if c = '.' ∧ fraction.all Char.isDigit ∧ (whole ≠ [] ∨ fraction ≠ []) then
      some (mkRat (digitsValue (whole ++ fraction)) (10 ^ fraction.length))
    else none

/-- The condition `!isNaN(move) && move >= 1 && move <= args.length` (index.js 168). The value
`none` of `toNumber` stands for `NaN` and for the two infinities, each of which fails one of the
three tests. -/
def moveGuard (toNumber : String → Option Rat) (args : List String) (move : String) : Bool :=
  match toNumber move with
  | none => false
  | some q => decide (1 ≤ q) && decide (q ≤ (args.length : Rat))

/-- The loop `while (true)` of `startGame` (index.js 161-174), run on the lines that
`readline.question` returns one after the other. When the lines run out the loop has printed
the menu and waits in `readline.question`. -/
def gameLoop (toNumber : String → Option Rat) (args : List String)
    (computerMove : Option String) (hmacKey : String) : List String → List Event
  | [] => [Event.availableMoves]
  | move :: rest =>
    Event.availableMoves :: Event.question move ::
      (if move = EXIT_COMMAND then []
       else if move = HELP_COMMAND then
         Event.table :: gameLoop toNumber args computerMove hmacKey rest
       else if moveGuard toNumber args move then
         printGameResult toNumber args move computerMove hmacKey
       else
         Event.error :: gameLoop toNumber args computerMove hmacKey rest)

/-- Function `startGame` (index.js 153-175). `draw` is the value returned by
`Random.integer`, `key` the string returned by `new Key().getKey()`, `inputs` the lines
returned by `readline.question`. -/
def startGame (sha3_256 : String → String) (toNumber : String → Option Rat)
    (args : List String) (draw : Nat) (key : String) (inputs : List String) : List Event :=
  let computerMove := ComputerMove.getMove args draw
  let hmacKey := key
  let hmac := HMAC.generateHMAC sha3_256 hmacKey computerMove
  Event.hmac hmac :: gameLoop toNumber args computerMove hmacKey inputs

/-- Function `main` (index.js 176-178). -/
def main (sha3_256 : String → String) (toNumber : String → Option Rat)
    (args : List String) (draw : Nat) (key : String) (inputs : List String) : List Event :=
  if !isValid args then [Event.error] else startGame sha3_256 toNumber args draw key inputs

/-! ## Lemmas on the index arithmetic -/

theorem winIndex_eq (n i j : Nat) (hi : i < n) (hj : j < n) :
    winIndex n i j = if i + j < n then i + j else i + j - n := by
  unfold winIndex
  split_ifs with h
  · exact Nat.mod_eq_of_lt h
  · rw [Nat.mod_eq_sub_mod (by omega)]
    exact Nat.mod_eq_of_lt (by omega)

theorem loseIndex_eq (n i j : Nat) (hi : i < n) (hj : j ≤ n) :
    loseIndex n i j = if j ≤ i then i - j else i + n - j := by
  unfold loseIndex
  have h0 : (0 : Int) ≤ (i : Int) - (j : Int) + (n : Int) := by omega
  rw [Int.tmod_eq_emod h0 (by omega)]
  split_ifs with h
  · have e : (i : Int) - (j : Int) + (n : Int) = ((i - j : Nat) : Int) + (n : Int) := by omega
    rw [e, Int.add_emod_self, ← Int.natCast_mod, Int.toNat_ofNat]
    exact Nat.mod_eq_of_lt (by omega)
  · have e : (i : Int) - (j : Int) + (n : Int) = ((i + n - j : Nat) : Int) := by omega
    rw [e, ← Int.natCast_mod, Int.toNat_ofNat]
    exact Nat.mod_eq_of_lt (by omega)

theorem winIndex_lt (n i j : Nat) (hn : 0 < n) : winIndex n i j < n :=
  Nat.mod_lt _ hn

theorem loseIndex_lt (n i j : Nat) (hi : i < n) (hj : j ≤ n) : loseIndex n i j < n := by
  rw [loseIndex_eq n i j hi hj]
  split_ifs <;> omega

/-! ## The writes of `fillMatrix` -/

theorem entry_writeCell (m : List (List Int)) (i k : Nat) (v : Int) (a b : Nat) :
    entry (writeCell m i k v) a b =
      if a = i ∧ b = k ∧ (entry m i k).isSome then some v else entry m a b := by
  unfold writeCell entry
  cases hrow : m[i]? with
  | none => simp
  | some row =>
    have hi : i < m.length := (List.getElem?_eq_some.mp hrow).1
    by_cases ha : a = i
    · subst ha
      by_cases hb : b = k
      · subst hb
        by_cases hk : b < row.length
        · simp [List.getElem?_set, hrow, hi, hk]
        · have hnone : row[b]? = none := List.getElem?_eq_none (by omega)
          simp [List.getElem?_set, hrow, hi, hk, hnone]
      · have hb2 : ¬ k = b := fun h => hb h.symm
        simp [List.getElem?_set, hrow, hi, hb, hb2]
    · have ha2 : ¬ i = a := fun h => ha h.symm
      simp [List.getElem?_set, ha, ha2]

theorem map_length_writeCell (m : List (List Int)) (i k : Nat) (v : Int) :
    (writeCell m i k v).map List.length = m.map List.length := by
  unfold writeCell
  cases hrow : m[i]? with
  | none => rfl
  | some row =>
    apply List.ext_getElem?
    intro a
    by_cases ha : i = a
    · subst ha
      obtain ⟨hi, hget⟩ := List.getElem?_eq_some.mp hrow
      simp [List.getElem?_set, hi, hget]
    · simp [List.getElem?_set, ha]

theorem cellUpTo_zero (n i k : Nat) (hi : i < n) (hk : k < n) : cellUpTo n i 0 k = 0 := by
  unfold cellUpTo offset
  split_ifs <;> omega

theorem cellUpTo_succ (n i t k : Nat) (hi : i < n) (hk : k < n) (ht : t + 1 ≤ n / 2) :
    (if k = loseIndex n i (t + 1) then (-1 : Int)
      else if k = winIndex n i (t + 1) then 1 else cellUpTo n i t k) =
      cellUpTo n i (t + 1) k := by
  rw [winIndex_eq n i (t + 1) hi (by omega), loseIndex_eq n i (t + 1) hi (by omega)]
  unfold cellUpTo offset
  split_ifs <;> omega

theorem entry_fillStep (n i j : Nat) (m : List (List Int)) (a b : Nat)
    (hw : (entry m i (winIndex n i j)).isSome) (hl : (entry m i (loseIndex n i j)).isSome) :
    entry (Table.fillStep n i m j) a b =
      if a = i ∧ b = loseIndex n i j then some (-1)
      else if a = i ∧ b = winIndex n i j then some 1 else entry m a b := by
  unfold Table.fillStep
  have hl2 : (entry (writeCell m i (winIndex n i j) 1) i (loseIndex n i j)).isSome := by
    rw [entry_writeCell]
    split
    · rfl
    · exact hl
  rw [entry_writeCell (writeCell m i (winIndex n i j) 1) i (loseIndex n i j) (-1) a b]
  simp only [hl2, and_true]
  rw [entry_writeCell m i (winIndex n i j) 1 a b]
  simp only [hw, and_true]

theorem holds_fillStep (n i t : Nat) (m : List (List Int)) (f : Nat → Nat → Int)
    (hi : i < n) (ht : t + 1 ≤ n / 2)
    (h : Holds n m (fun a b => if a = i then cellUpTo n i t b else f a b)) :
    Holds n (Table.fillStep n i m (t + 1))
      (fun a b => if a = i then cellUpTo n i (t + 1) b else f a b) := by
  intro a b ha hb
  have hw : winIndex n i (t + 1) < n := winIndex_lt n i (t + 1) (by omega)
  have hl : loseIndex n i (t + 1) < n := loseIndex_lt n i (t + 1) hi (by omega)
  rw [entry_fillStep n i (t + 1) m a b (by rw [h i _ hi hw]; rfl) (by rw [h i _ hi hl]; rfl)]
  rw [h a b ha hb]
  by_cases hai : a = i
  · subst hai
    simp only [true_and, if_true]
    rw [← cellUpTo_succ n a t b ha hb ht]
    split_ifs <;> rfl
  · simp only [hai, false_and, if_false]

theorem holds_fillRow_aux (n i : Nat) (m : List (List Int)) (f : Nat → Nat → Int)
    (hi : i < n) (h : Holds n m f) (h0 : ∀ b, b < n → f i b = 0) (t : Nat) (ht : t ≤ n / 2) :
    Holds n ((List.range' 1 t).foldl (Table.fillStep n i) m)
      (fun a b => if a = i then cellUpTo n i t b else f a b) := by
  induction t with
  | zero =>
    intro a b ha hb
    simp only [List.range'_zero, List.foldl_nil]
    rw [h a b ha hb]
    by_cases hai : a = i
    · subst hai
      simp [cellUpTo_zero n a b ha hb, h0 b hb]
    · simp [hai]
  | succ t ih =>
    rw [List.range'_concat, List.foldl_append]
    simp only [List.foldl_cons, List.foldl_nil]
    rw [show 1 + 1 * t = t + 1 by omega]
    exact holds_fillStep n i t _ f hi ht (ih (by omega))

theorem holds_fillRow (n i : Nat) (m : List (List Int)) (f : Nat → Nat → Int)
    (hi : i < n) (h : Holds n m f) (h0 : ∀ b, b < n → f i b = 0) :
    Holds n (Table.fillRow n (n / 2) m i)
      (fun a b => if a = i then cell n i b else f a b) :=
  holds_fillRow_aux n i m f hi h h0 (n / 2) (le_refl _)

theorem holds_createEmptyMatrix (n : Nat) :
    Holds n (Table.createEmptyMatrix n) (fun _ _ => 0) := by
  intro a b ha hb
  simp [Table.createEmptyMatrix, entry, List.getElem?_replicate, ha, hb]

theorem holds_fillMatrix_aux (n s : Nat) (hs : s ≤ n) :
    Holds n ((List.range s).foldl (Table.fillRow n (n / 2)) (Table.createEmptyMatrix n))
      (fun a b => if a < s then cell n a b else 0) := by
  induction s with
  | zero =>
    simpa using holds_createEmptyMatrix n
  | succ s ih =>
    rw [List.range_succ, List.foldl_append]
    simp only [List.foldl_cons, List.foldl_nil]
    have h := holds_fillRow n s _ _ (by omega) (ih (by omega)) (by intro b _; simp)
    intro a b ha hb
    rw [h a b ha hb]
    by_cases h1 : a = s
    · subst h1; simp
    · by_cases h2 : a < s
      · simp [h1, h2, Nat.lt_succ_of_lt h2]
      · have h3 : ¬ a < s + 1 := by omega
        simp [h1, h2, h3]

theorem holds_fillMatrix (n : Nat) :
    Holds n (Table.fillMatrix n (n / 2) (Table.createEmptyMatrix n)) (cell n) := by
  intro a b ha hb
  have h := holds_fillMatrix_aux n n (le_refl _) a b ha hb
  simpa [Table.fillMatrix, ha] using h

theorem map_length_fillStep (n i j : Nat) (m : List (List Int)) :
    (Table.fillStep n i m j).map List.length = m.map List.length := by
  unfold Table.fillStep
  rw [map_length_writeCell, map_length_writeCell]

theorem map_length_fillRow (n h i : Nat) (m : List (List Int)) :
    (Table.fillRow n h m i).map List.length = m.map List.length := by
  unfold Table.fillRow
  generalize List.range' 1 h = js
  induction js generalizing m with
  | nil => rfl
  | cons j js ih => rw [List.foldl_cons, ih, map_length_fillStep]

theorem map_length_fillMatrix (n h : Nat) (m : List (List Int)) :
    (Table.fillMatrix n h m).map List.length = m.map List.length := by
  unfold Table.fillMatrix
  generalize List.range n = is
  induction is generalizing m with
  | nil => rfl
  | cons i is ih => rw [List.foldl_cons, ih, map_length_fillRow]

/-- The finished matrix, cell by cell. -/
theorem filledMatrix_eq (elements : List String) :
    (Table.new elements).filledMatrix =
      (List.range elements.length).map
        (fun i => (List.range elements.length).map (fun k => cell elements.length i k)) := by
  have hlen := map_length_fillMatrix elements.length (elements.length / 2)
    (Table.createEmptyMatrix elements.length)
  have hh := holds_fillMatrix elements.length
  show Table.fillMatrix elements.length (elements.length / 2)
      (Table.createEmptyMatrix elements.length) = _
  generalize Table.fillMatrix elements.length (elements.length / 2)
      (Table.createEmptyMatrix elements.length) = M at hlen hh
  generalize elements.length = n at hlen hh
  have hML : M.length = n := by
    have := congrArg List.length hlen
    simpa [Table.createEmptyMatrix] using this
  apply List.ext_getElem?
  intro a
  by_cases ha : a < n
  · obtain ⟨row, hrow⟩ : ∃ row, M[a]? = some row := by
      rw [List.getElem?_eq_getElem (by omega)]; exact ⟨_, rfl⟩
    have hrl : row.length = n := by
      have := congrArg (fun l => l[a]?) hlen
      simp [Table.createEmptyMatrix, List.getElem?_replicate, ha, hrow] at this
      exact this
    rw [hrow, List.getElem?_map, List.getElem?_range ha]
    simp only [Option.map_some']
    congr 1
    apply List.ext_getElem?
    intro b
    by_cases hb : b < n
    · have := hh a b ha hb
      simp only [entry, hrow, Option.some_bind] at this
      rw [this, List.getElem?_map, List.getElem?_range hb]
      rfl
    · rw [List.getElem?_eq_none (by omega), List.getElem?_eq_none (by simp; omega)]
  · rw [List.getElem?_eq_none (by omega), List.getElem?_eq_none (by simp; omega)]

/-! ## Properties of the closed form -/

theorem entry_filledMatrix (elements : List String) (i k : Nat)
    (hi : i < elements.length) (hk : k < elements.length) :
    entry (Table.new elements).filledMatrix i k = some (cell elements.length i k) :=
  holds_fillMatrix elements.length i k hi hk

theorem cell_self (n i : Nat) : cell n i i = 0 := by
  simp [cell, cellUpTo, offset]

theorem cell_odd_eq_one_iff (n i k : Nat) (hodd : n % 2 = 1) (hi : i < n) (hk : k < n) :
    cell n i k = 1 ↔ (i < k ∧ k ≤ i + n / 2) ∨ k + n ≤ i + n / 2 := by
  unfold cell cellUpTo offset
  split_ifs <;> simp <;> omega

theorem cell_odd_eq_neg_one_iff (n i k : Nat) (hodd : n % 2 = 1) (hi : i < n) (hk : k < n) :
    cell n i k = -1 ↔ (i + n / 2 < k) ∨ (k < i ∧ i + n / 2 < k + n) := by
  unfold cell cellUpTo offset
  split_ifs <;> simp <;> omega

theorem cell_eq_zero_iff (n i k : Nat) (hodd : n % 2 = 1) (hi : i < n) (hk : k < n) :
    cell n i k = 0 ↔ k = i := by
  unfold cell cellUpTo offset
  split_ifs <;> simp <;> omega

theorem countP_range_succ (p : Nat → Bool) (s : Nat) :
    (List.range (s + 1)).countP p = (List.range s).countP p + (if p s then 1 else 0) := by
  rw [List.range_succ, List.countP_append]
  simp [List.countP_cons]

theorem count_win_prefix (n i s : Nat) (hodd : n % 2 = 1) (hi : i < n) (hs : s ≤ n) :
    (List.range s).countP (fun k => cell n i k == 1) =
      (min s (i + n / 2 + 1) - (i + 1)) + min s (i + n / 2 + 1 - n) := by
  induction s with
  | zero => simp
  | succ s ih =>
    rw [countP_range_succ, ih (by omega)]
    have h := cell_odd_eq_one_iff n i s hodd hi (by omega)
    by_cases hc : cell n i s = 1
    · have := h.mp hc
      simp only [hc, beq_self_eq_true, if_true]
      omega
    · have : ¬ ((i < s ∧ s ≤ i + n / 2) ∨ s + n ≤ i + n / 2) := fun h2 => hc (h.mpr h2)
      have hb : (cell n i s == 1) = false := by simpa using hc
      simp only [hb, Bool.false_eq_true, if_false]
      omega

theorem count_lose_prefix (n i s : Nat) (hodd : n % 2 = 1) (hi : i < n) (hs : s ≤ n) :
    (List.range s).countP (fun k => cell n i k == -1) =
      (s - (i + n / 2 + 1)) + (min s i - (i + n / 2 + 1 - n)) := by
  induction s with
  | zero => simp
  | succ s ih =>
    rw [countP_range_succ, ih (by omega)]
    have h := cell_odd_eq_neg_one_iff n i s hodd hi (by omega)
    by_cases hc : cell n i s = -1
    · have := h.mp hc
      simp only [hc, beq_self_eq_true, if_true]
      omega
    · have : ¬ ((i + n / 2 < s) ∨ (s < i ∧ i + n / 2 < s + n)) := fun h2 => hc (h.mpr h2)
      have hb : (cell n i s == -1) = false := by simpa using hc
      simp only [hb, Bool.false_eq_true, if_false]
      omega

theorem count_draw_prefix (n i s : Nat) (hodd : n % 2 = 1) (hi : i < n) (hs : s ≤ n) :
    (List.range s).countP (fun k => cell n i k == 0) = if i < s then 1 else 0 := by
  induction s with
  | zero => simp
  | succ s ih =>
    rw [countP_range_succ, ih (by omega)]
    have h := cell_eq_zero_iff n i s hodd hi (by omega)
    by_cases hc : cell n i s = 0
    · have := h.mp hc
      simp only [hc, beq_self_eq_true, if_true]
      split_ifs <;> omega
    · have : ¬ s = i := fun h2 => hc (h.mpr h2)
      have hb : (cell n i s == 0) = false := by simpa using hc
      simp only [hb, Bool.false_eq_true, if_false]
      split_ifs <;> omega

theorem count_map_range (n i : Nat) (v : Int) :
    ((List.range n).map (fun k => cell n i k)).count v =
      (List.range n).countP (fun k => cell n i k == v) := by
  rw [List.count_eq_countP, List.countP_map]
  rfl

theorem row_filledMatrix (elements : List String) (i : Nat) (hi : i < elements.length) :
    (Table.new elements).filledMatrix[i]? =
      some ((List.range elements.length).map (fun k => cell elements.length i k)) := by
  rw [filledMatrix_eq, List.getElem?_map, List.getElem?_range hi]
  rfl

/-! ## The relation matrix: claims C1 to C3 -/

/-- Claim C1. For a move list of odd length at least 3 and ordinals `i ≠ j` below the length,
the matrix built by `fillMatrix` has `matrix[i][j] = 1` (WIN) exactly when `matrix[j][i] = -1`
(LOSE), and neither off-diagonal entry is `0` (DRAW). -/
theorem fillMatrix_antisymmetric (elements : List String)
    (hodd : elements.length % 2 = 1) (h3 : 3 ≤ elements.length) (i j : Nat)
    (hi : i < elements.length) (hj : j < elements.length) (hij : i ≠ j) :
    (entry (Table.new elements).filledMatrix i j = some 1 ↔
        entry (Table.new elements).filledMatrix j i = some (-1)) ∧
      entry (Table.new elements).filledMatrix i j ≠ some 0 ∧
      entry (Table.new elements).filledMatrix j i ≠ some 0 := by
  rw [entry_filledMatrix elements i j hi hj, entry_filledMatrix elements j i hj hi]
  simp only [Option.some.injEq, ne_eq]
  rw [cell_odd_eq_one_iff _ i j hodd hi hj, cell_odd_eq_neg_one_iff _ j i hodd hj hi,
    cell_eq_zero_iff _ i j hodd hi hj, cell_eq_zero_iff _ j i hodd hj hi]
  omega

theorem fillMatrix_antisymmetric_witness :
    (entry (Table.new ["Rock", "Paper", "Scissors"]).filledMatrix 0 1 = some 1 ↔
        entry (Table.new ["Rock", "Paper", "Scissors"]).filledMatrix 1 0 = some (-1)) ∧
      entry (Table.new ["Rock", "Paper", "Scissors"]).filledMatrix 0 1 ≠ some 0 ∧
      entry (Table.new ["Rock", "Paper", "Scissors"]).filledMatrix 1 0 ≠ some 0 :=
  fillMatrix_antisymmetric ["Rock", "Paper", "Scissors"] (by decide) (by decide) 0 1
    (by decide) (by decide) (by decide)

/-- Claim C2. For a move list of odd length `N` at least 3 and an ordinal `i` below `N`, row `i`
of the matrix built by `fillMatrix` exists, has `N` entries, of which exactly `(N - 1) / 2` are
`1` (WIN), exactly `(N - 1) / 2` are `-1` (LOSE) and exactly one is `0` (DRAW), and the entry at
column `i` is `0`. -/
theorem fillMatrix_row_counts (elements : List String)
    (hodd : elements.length % 2 = 1) (h3 : 3 ≤ elements.length) (i : Nat)
    (hi : i < elements.length) :
    ∃ row, (Table.new elements).filledMatrix[i]? = some row ∧
      row.length = elements.length ∧
      row.count 1 = (elements.length - 1) / 2 ∧
      row.count (-1) = (elements.length - 1) / 2 ∧
      row.count 0 = 1 ∧
      row[i]? = some 0 := by
  refine ⟨_, row_filledMatrix elements i hi, by simp, ?_, ?_, ?_, ?_⟩
  · rw [count_map_range, count_win_prefix _ i _ hodd hi (le_refl _)]
    omega
  · rw [count_map_range, count_lose_prefix _ i _ hodd hi (le_refl _)]
    omega
  · rw [count_map_range, count_draw_prefix _ i _ hodd hi (le_refl _)]
    simp [hi]
  · rw [List.getElem?_map, List.getElem?_range hi]
    simp [cell_self]

theorem fillMatrix_row_counts_witness :
    ∃ row, (Table.new ["Rock", "Spock", "Paper", "Lizard", "Scissors"]).filledMatrix[3]? =
        some row ∧
      row.length = ["Rock", "Spock", "Paper", "Lizard", "Scissors"].length ∧
      row.count 1 = (["Rock", "Spock", "Paper", "Lizard", "Scissors"].length - 1) / 2 ∧
      row.count (-1) = (["Rock", "Spock", "Paper", "Lizard", "Scissors"].length - 1) / 2 ∧
      row.count 0 = 1 ∧
      row[3]? = some 0 :=
  fillMatrix_row_counts ["Rock", "Spock", "Paper", "Lizard", "Scissors"] (by decide) (by decide)
    3 (by decide)

/-- Claim C3. For an odd length `N` at least 3 and a list of `N` distinct labels, the matrix
built by `fillMatrix` has `matrix[i][i] = 0` (DRAW) for every ordinal `i` below `N`. -/
theorem fillMatrix_diagonal (elements : List String)
    (hodd : elements.length % 2 = 1) (h3 : 3 ≤ elements.length) (hnodup : elements.Nodup)
    (i : Nat) (hi : i < elements.length) :
    entry (Table.new elements).filledMatrix i i = some 0 := by
  rw [entry_filledMatrix elements i i hi hi, cell_self]

theorem fillMatrix_diagonal_witness :
    entry (Table.new ["Rock", "Paper", "Scissors"]).filledMatrix 2 2 = some 0 :=
  fillMatrix_diagonal ["Rock", "Paper", "Scissors"] (by decide) (by decide) (by decide) 2
    (by decide)

/-! ## Move-set validation: claims C4 and C5 -/

theorem length_foldl_setAdd_le (l acc : List String) :
    (l.foldl setAdd acc).length ≤ acc.length + l.length := by
  induction l generalizing acc with
  | nil => simp
  | cons e t ih =>
    rw [List.foldl_cons]
    by_cases h : e ∈ acc
    · rw [show setAdd acc e = acc by simp [setAdd, h]]
      have := ih acc
      simp only [List.length_cons]
      omega
    · rw [show setAdd acc e = acc ++ [e] by simp [setAdd, h]]
      have := ih (acc ++ [e])
      simp only [List.length_append, List.length_cons, List.length_nil] at this ⊢
      omega

theorem length_foldl_setAdd_eq_iff (l acc : List String) :
    (l.foldl setAdd acc).length = acc.length + l.length ↔
      l.Nodup ∧ ∀ x ∈ l, x ∉ acc := by
  induction l generalizing acc with
  | nil => simp
  | cons e t ih =>
    rw [List.foldl_cons]
    by_cases h : e ∈ acc
    · rw [show setAdd acc e = acc by simp [setAdd, h]]
      have hle := length_foldl_setAdd_le t acc
      simp only [List.length_cons]
      constructor
      · intro heq; omega
      · intro hr
        exact absurd h (hr.2 e (List.mem_cons_self e t))
    · rw [show setAdd acc e = acc ++ [e] by simp [setAdd, h]]
      have := ih (acc ++ [e])
      simp only [List.length_append, List.length_cons, List.length_nil] at this ⊢
      rw [show acc.length + (t.length + 1) = acc.length + (0 + 1) + t.length by omega, this]
      constructor
      · rintro ⟨hnd, hx⟩
        refine ⟨List.nodup_cons.mpr ⟨fun he => ?_, hnd⟩, fun x hxm => ?_⟩
        · exact hx e he (List.mem_append_right _ (List.mem_singleton_self e))
        · rcases List.mem_cons.mp hxm with rfl | hxt
          · exact h
          · exact fun hxa => hx x hxt (List.mem_append_left _ hxa)
      · rintro ⟨hnd, hx⟩
        have hnd2 := List.nodup_cons.mp hnd
        refine ⟨hnd2.2, fun x hxt hxm => ?_⟩
        rcases List.mem_append.mp hxm with hxa | hxe
        · exact hx x (List.mem_cons_of_mem _ hxt) hxa
        · rw [List.mem_singleton] at hxe
          subst hxe
          exact hnd2.1 hxt

theorem hasDuplicates_eq_false_iff (elements : List String) :
    hasDuplicates elements = false ↔ elements.Nodup := by
  unfold hasDuplicates newSet
  have := length_foldl_setAdd_eq_iff elements []
  simp only [List.length_nil, Nat.zero_add, List.not_mem_nil, not_false_eq_true,
    implies_true, and_true] at this
  rw [← this]
  simp

theorem isValid_eq_true_iff (elements : List String) :
    isValid elements = true ↔ elements.length % 2 = 1 ∧ elements.Nodup := by
  unfold isValid isEvenCount
  rw [← hasDuplicates_eq_false_iff]
  cases hasDuplicates elements <;> simp

/-- Claim C4. `isValid` returns `false` for every list of even length and for every list in
which two elements are equal strings, and returns `true` for every list of odd length at least 3
whose elements are pairwise distinct. -/
theorem isValid_spec (elements : List String) :
    (elements.length % 2 = 0 → isValid elements = false) ∧
      (¬ elements.Nodup → isValid elements = false) ∧
      (elements.length % 2 = 1 → 3 ≤ elements.length → elements.Nodup →
        isValid elements = true) := by
  refine ⟨fun h => ?_, fun h => ?_, fun h1 _ h3 => (isValid_eq_true_iff elements).mpr ⟨h1, h3⟩⟩
  · cases hv : isValid elements with
    | false => rfl
    | true => have := ((isValid_eq_true_iff elements).mp hv).1; omega
  · cases hv : isValid elements with
    | false => rfl
    | true => exact absurd ((isValid_eq_true_iff elements).mp hv).2 h

theorem isValid_spec_witness :
    isValid ["Rock", "Paper"] = false ∧ isValid ["Rock", "Rock", "Paper"] = false ∧
      isValid ["Rock", "Paper", "Scissors"] = true :=
  ⟨(isValid_spec ["Rock", "Paper"]).1 (by decide),
   (isValid_spec ["Rock", "Rock", "Paper"]).2.1 (by decide),
   (isValid_spec ["Rock", "Paper", "Scissors"]).2.2 (by decide) (by decide) (by decide)⟩

/-- Claim C5 fails for a list of length 1: `isValid ["Rock"]` is `true` although the length is
below 3, and `main` then starts a round instead of printing the error alone. -/
theorem isValid_short_counterexample :
    ["Rock"].length < 3 ∧ isValid ["Rock"] = true ∧
      main (fun s => s) (fun _ => none) ["Rock"] 0 "k" [] ≠ [Event.error] := by
  decide

/-- Claim C5 as amended. `isValid` returns `false` for every list of length 0 or 2, and `main`
then prints the error message and nothing else; for every list of length 1 `isValid` returns
`true` and `main` starts a round: it runs `startGame`, which publishes a digest, and does not
print the error message alone (the validator checks parity and duplicates, not a minimum
length). -/
theorem isValid_short (elements : List String) :
    ((elements.length = 0 ∨ elements.length = 2) →
        isValid elements = false ∧
        ∀ (sha3_256 : String → String) (toNumber : String → Option Rat) (draw : Nat)
          (key : String) (inputs : List String),
          main sha3_256 toNumber elements draw key inputs = [Event.error]) ∧
      (elements.length = 1 →
        isValid elements = true ∧
        ∀ (sha3_256 : String → String) (toNumber : String → Option Rat) (draw : Nat)
          (key : String) (inputs : List String),
          main sha3_256 toNumber elements draw key inputs =
              startGame sha3_256 toNumber elements draw key inputs ∧
            main sha3_256 toNumber elements draw key inputs =
              Event.hmac (HMAC.generateHMAC sha3_256 key (ComputerMove.getMove elements draw)) ::
                gameLoop toNumber elements (ComputerMove.getMove elements draw) key inputs ∧
            main sha3_256 toNumber elements draw key inputs ≠ [Event.error]) := by
  constructor
  · intro h
    have hv : isValid elements = false := by
      cases hv : isValid elements with
      | false => rfl
      | true => have := ((isValid_eq_true_iff elements).mp hv).1; omega
    refine ⟨hv, ?_⟩
    intros
    simp [main, hv]
  · intro h
    have hv : isValid elements = true := by
      apply (isValid_eq_true_iff elements).mpr
      refine ⟨by omega, ?_⟩
      match elements, h with
      | [x], _ => simp
    refine ⟨hv, ?_⟩
    intro sha3_256 toNumber draw key inputs
    have hm : main sha3_256 toNumber elements draw key inputs =
        startGame sha3_256 toNumber elements draw key inputs := by
      simp [main, hv]
    refine ⟨hm, by rw [hm]; rfl, ?_⟩
    rw [hm]
    simp [startGame]

theorem isValid_short_witness :
    (isValid ["Rock", "Paper"] = false ∧
        ∀ (sha3_256 : String → String) (toNumber : String → Option Rat) (draw : Nat)
          (key : String) (inputs : List String),
          main sha3_256 toNumber ["Rock", "Paper"] draw key inputs = [Event.error]) ∧
      (isValid ["Rock"] = true ∧
        ∀ (sha3_256 : String → String) (toNumber : String → Option Rat) (draw : Nat)
          (key : String) (inputs : List String),
          main sha3_256 toNumber ["Rock"] draw key inputs =
              startGame sha3_256 toNumber ["Rock"] draw key inputs ∧
            main sha3_256 toNumber ["Rock"] draw key inputs =
              Event.hmac (HMAC.generateHMAC sha3_256 key (ComputerMove.getMove ["Rock"] draw)) ::
                gameLoop toNumber ["Rock"] (ComputerMove.getMove ["Rock"] draw) key inputs ∧
            main sha3_256 toNumber ["Rock"] draw key inputs ≠ [Event.error]) :=
  ⟨(isValid_short ["Rock", "Paper"]).1 (Or.inr (by decide)),
   (isValid_short ["Rock"]).2 (by decide)⟩

/-! ## Round resolution: claims C6 and C10 -/

theorem indexOfFrom_mem (s : String) (l : List String) (k : Nat) (h : s ∈ l) :
    ∃ p, p < l.length ∧ indexOfFrom s l k = ((k + p : Nat) : Int) ∧ l[p]? = some s := by
  induction l generalizing k with
  | nil => cases h
  | cons e t ih =>
    unfold indexOfFrom
    by_cases he : e = s
    · exact ⟨0, by simp, by simp [he], by simp [he]⟩
    · have hs : s ∈ t := by
        rcases List.mem_cons.mp h with h1 | h1
        · exact absurd h1.symm he
        · exact h1
      obtain ⟨p, hp, hidx, hget⟩ := ih (k + 1) hs
      refine ⟨p + 1, by simp [hp], ?_, by simpa using hget⟩
      rw [if_neg he, hidx]
      congr 1
      omega

theorem indexOf_mem (elements : List String) (s : String) (h : s ∈ elements) :
    ∃ p, p < elements.length ∧ indexOf elements (some s) = (p : Int) ∧
      elements[p]? = some s := by
  obtain ⟨p, hp, hidx, hget⟩ := indexOfFrom_mem s elements 0 h
  exact ⟨p, hp, by simpa [indexOf] using hidx, hget⟩

theorem jsIndex_natCast {α : Type} (l : List α) (p : Nat) : jsIndex l (p : Int) = l[p]? := by
  simp [jsIndex]

theorem GameRules_new_of_ordinals (elements : List String) (playerMove computerMove : Option String)
    (p c : Nat) (hp : p < elements.length) (hc : c < elements.length)
    (hip : indexOf elements playerMove = (p : Int))
    (hic : indexOf elements computerMove = (c : Int)) :
    GameRules.new elements playerMove computerMove =
      some { matrix := (Table.new elements).filledMatrix
             indexPlayer := (p : Int)
             indexComputer := (c : Int)
             result := some (cell elements.length p c) } := by
  unfold GameRules.new
  simp only [hip, hic, jsIndex_natCast, row_filledMatrix elements p hp]
  simp [List.getElem?_range hc]

/-- Claim C6 fails on the code: for the move list `[Rock, Paper, Scissors]` and the player's move
`Rock`, `getWinner` does not return the win message against `Scissors` (it returns the lose
message) and does not return the lose message against `Paper` (it returns the win message). -/
theorem getWinner_rock_scissors_counterexample :
    getWinner ["Rock", "Paper", "Scissors"] (some "Rock") (some "Scissors") ≠ some WIN_RESULT ∧
      getWinner ["Rock", "Paper", "Scissors"] (some "Rock") (some "Paper") ≠ some LOSE_RESULT ∧
      getWinner ["Rock", "Paper", "Scissors"] (some "Rock") (some "Scissors") =
        some LOSE_RESULT := by
  decide

/-- Claim C6 as amended. For the move list `[Rock, Paper, Scissors]` the outcome from the
player's move `Rock` is WIN against `Paper` (the move one position ahead), LOSE against
`Scissors` (the move one position behind) and DRAW against `Rock`: `getWinner` returns the win
message, the lose message and the draw message respectively, three different messages, and
these are the cells `1`, `-1` and `0` of row `Rock` of the matrix. -/
theorem getWinner_rock_paper_scissors :
    getWinner ["Rock", "Paper", "Scissors"] (some "Rock") (some "Paper") = some WIN_RESULT ∧
      getWinner ["Rock", "Paper", "Scissors"] (some "Rock") (some "Scissors") =
        some LOSE_RESULT ∧
      getWinner ["Rock", "Paper", "Scissors"] (some "Rock") (some "Rock") = some DRAW_RESULT ∧
      WIN_RESULT ≠ LOSE_RESULT ∧ WIN_RESULT ≠ DRAW_RESULT ∧ LOSE_RESULT ≠ DRAW_RESULT ∧
      (Table.new ["Rock", "Paper", "Scissors"]).filledMatrix[0]? = some [0, 1, -1] := by
  decide

/-- Claim C10. For a duplicate-free move list of odd length at least 3 and a player move and a
computer move taken from the list, the constructor does not throw and `getWinner` returns the
draw message if and only if the two moves are the same element, that is, if and only if
`indexOf` gives them the same ordinal. -/
theorem getWinner_draw_iff (elements : List String)
    (hodd : elements.length % 2 = 1) (h3 : 3 ≤ elements.length) (hnodup : elements.Nodup)
    (playerMove computerMove : String)
    (hp : playerMove ∈ elements) (hc : computerMove ∈ elements) :
    ∃ message, getWinner elements (some playerMove) (some computerMove) = some message ∧
      (message = DRAW_RESULT ↔ playerMove = computerMove) ∧
      (message = DRAW_RESULT ↔
        indexOf elements (some playerMove) = indexOf elements (some computerMove)) := by
  obtain ⟨p, hpl, hpi, hpg⟩ := indexOf_mem elements playerMove hp
  obtain ⟨c, hcl, hci, hcg⟩ := indexOf_mem elements computerMove hc
  have hnew := GameRules_new_of_ordinals elements _ _ p c hpl hcl hpi hci
  have hz := cell_eq_zero_iff elements.length p c hodd hpl hcl
  have hmsg : getWinner elements (some playerMove) (some computerMove) =
      some (if cell elements.length p c = 0 then DRAW_RESULT
        else if cell elements.length p c = 1 then WIN_RESULT else LOSE_RESULT) := by
    simp [getWinner, hnew, GameRules.getWinner]
  have hd : (if cell elements.length p c = 0 then DRAW_RESULT
        else if cell elements.length p c = 1 then WIN_RESULT else LOSE_RESULT) = DRAW_RESULT ↔
      c = p := by
    rw [← hz]
    split_ifs with h0 h1
    · simp [h0]
    · simp only [h0, iff_false]; decide
    · simp only [h0, iff_false]; decide
  refine ⟨_, hmsg, ?_, ?_⟩
  · rw [hd]
    constructor
    · intro h
      subst h
      rw [hpg] at hcg
      exact (Option.some.inj hcg)
    · intro h
      subst h
      rw [hpi] at hci
      exact_mod_cast hci.symm
  · rw [hd, hpi, hci]
    constructor
    · intro h; rw [h]
    · intro h; exact_mod_cast h.symm

theorem getWinner_draw_iff_witness :
    ∃ message, getWinner ["Rock", "Paper", "Scissors"] (some "Paper") (some "Rock") =
        some message ∧
      (message = DRAW_RESULT ↔ "Paper" = "Rock") ∧
      (message = DRAW_RESULT ↔
        indexOf ["Rock", "Paper", "Scissors"] (some "Paper") =
          indexOf ["Rock", "Paper", "Scissors"] (some "Rock")) :=
  getWinner_draw_iff ["Rock", "Paper", "Scissors"] (by decide) (by decide) (by decide)
    "Paper" "Rock" (by decide) (by decide)

/-! ## Commitment and protocol order: claims C7 to C9 -/

theorem jsIndexMinusOne_eq {α : Type} (l : List α) (x : Option Rat) :
    jsIndexMinusOne l x = jsIndexNum l (x.map (fun q => q - 1)) := by
  cases x with
  | none => rfl
  | some q =>
    simp only [jsIndexMinusOne, jsIndexNum, Option.map_some', Rat.isInt, Nat.beq_eq_true_eq]
    by_cases hd : q.den = 1
    · have hq : ((q.num : Int) : Rat) = q := Rat.coe_int_num_of_den_eq_one hd
      have hq1 : q - 1 = ((q.num - 1 : Int) : Rat) := by push_cast; rw [hq]
      have hden : (q - 1).den = 1 := by rw [hq1]; exact Rat.den_intCast _
      have hnum : (q - 1).num = q.num - 1 := by rw [hq1]; exact Rat.num_intCast _
      have hle : (1 ≤ q) ↔ (0 ≤ q - 1) := by constructor <;> intro h <;> linarith
      simp only [hd, hden, hnum, hle, true_and]
    · have hden : ¬ (q - 1).den = 1 := by
        intro h
        apply hd
        have h1 : (((q - 1).num : Int) : Rat) = q - 1 := Rat.coe_int_num_of_den_eq_one h
        have h2 : q = (((q - 1).num + 1 : Int) : Rat) := by push_cast; rw [h1]; ring
        rw [h2]
        exact Rat.den_intCast _
      simp only [hd, hden, false_and, if_false]

theorem mem_printGameResult_hmacKey (toNumber : String → Option Rat) (args : List String)
    (move : String) (computerMove : Option String) (hmacKey k : String)
    (h : Event.hmacKey k ∈ printGameResult toNumber args move computerMove hmacKey) :
    k = hmacKey := by
  simp only [printGameResult] at h
  split at h
  · simp at h
  · simpa using h

theorem mem_printGameResult_moves (toNumber : String → Option Rat) (args : List String)
    (move : String) (computerMove : Option String) (hmacKey : String) (p c : Option String)
    (h : Event.moves p c ∈ printGameResult toNumber args move computerMove hmacKey) :
    c = computerMove := by
  simp only [printGameResult] at h
  split at h
  · simp at h
  · simp at h
    exact h.2

theorem mem_gameLoop_hmacKey (toNumber : String → Option Rat) (args : List String)
    (computerMove : Option String) (hmacKey k : String) (inputs : List String)
    (h : Event.hmacKey k ∈ gameLoop toNumber args computerMove hmacKey inputs) :
    k = hmacKey := by
  induction inputs with
  | nil => simp [gameLoop] at h
  | cons move rest ih =>
    unfold gameLoop at h
    simp only [List.mem_cons, reduceCtorEq, false_or] at h
    split_ifs at h with h1 h2 h3
    · simp at h
    · simp only [List.mem_cons, reduceCtorEq, false_or] at h
      exact ih h
    · exact mem_printGameResult_hmacKey _ _ _ _ _ _ h
    · simp only [List.mem_cons, reduceCtorEq, false_or] at h
      exact ih h

theorem mem_gameLoop_moves (toNumber : String → Option Rat) (args : List String)
    (computerMove : Option String) (hmacKey : String) (p c : Option String)
    (inputs : List String)
    (h : Event.moves p c ∈ gameLoop toNumber args computerMove hmacKey inputs) :
    c = computerMove := by
  induction inputs with
  | nil => simp [gameLoop] at h
  | cons move rest ih =>
    unfold gameLoop at h
    simp only [List.mem_cons, reduceCtorEq, false_or] at h
    split_ifs at h with h1 h2 h3
    · simp at h
    · simp only [List.mem_cons, reduceCtorEq, false_or] at h
      exact ih h
    · exact mem_printGameResult_moves _ _ _ _ _ _ _ h
    · simp only [List.mem_cons, reduceCtorEq, false_or] at h
      exact ih h

theorem mem_gameLoop_hmac (toNumber : String → Option Rat) (args : List String)
    (computerMove : Option String) (hmacKey d : String) (inputs : List String) :
    Event.hmac d ∉ gameLoop toNumber args computerMove hmacKey inputs := by
  induction inputs with
  | nil => simp [gameLoop]
  | cons move rest ih =>
    unfold gameLoop
    simp only [List.mem_cons, reduceCtorEq, false_or]
    split_ifs with h1 h2 h3
    · simp
    · simpa using ih
    · simp only [printGameResult]
      split <;> simp
    · simpa using ih

/-- Claim C7. In every run of `startGame` that resolves, that is, prints a revealed key and a
computer move, the first thing printed is the digest, it is printed once, and it equals
`generateHMAC` applied to the revealed key and the printed computer move; and `generateHMAC`
gives equal digests on equal keys and moves. -/
theorem commit_reveal_round_trip (sha3_256 : String → String) (toNumber : String → Option Rat)
    (args : List String) (draw : Nat) (key : String) (inputs : List String)
    (revealedKey : String) (playerMove computerMove : Option String)
    (hkey : Event.hmacKey revealedKey ∈ startGame sha3_256 toNumber args draw key inputs)
    (hmove : Event.moves playerMove computerMove ∈
      startGame sha3_256 toNumber args draw key inputs) :
    (∃ rest, startGame sha3_256 toNumber args draw key inputs =
        Event.hmac (HMAC.generateHMAC sha3_256 revealedKey computerMove) :: rest ∧
        ∀ d, Event.hmac d ∉ rest) ∧
      ∀ (k k' : String) (m m' : Option String), k = k' → m = m' →
        HMAC.generateHMAC sha3_256 k m = HMAC.generateHMAC sha3_256 k' m' := by
  unfold startGame at hkey hmove ⊢
  simp only [List.mem_cons, reduceCtorEq, false_or] at hkey hmove
  have h1 := mem_gameLoop_hmacKey _ _ _ _ _ _ hkey
  have h2 := mem_gameLoop_moves _ _ _ _ _ _ _ hmove
  subst h1 h2
  refine ⟨⟨_, rfl, fun d => mem_gameLoop_hmac _ _ _ _ d _⟩, ?_⟩
  intro k k' m m' hk hm
  rw [hk, hm]

theorem commit_reveal_round_trip_witness :
    (∃ rest, startGame (fun s => s) digitsToNumber ["Rock", "Paper", "Scissors"] 1 "k"
          ["?", "7", "3"] =
        Event.hmac (HMAC.generateHMAC (fun s => s) "k" (some "Paper")) :: rest ∧
        ∀ d, Event.hmac d ∉ rest) ∧
      ∀ (k k' : String) (m m' : Option String), k = k' → m = m' →
        HMAC.generateHMAC (fun s => s) k m = HMAC.generateHMAC (fun s => s) k' m' :=
  commit_reveal_round_trip (fun s => s) digitsToNumber ["Rock", "Paper", "Scissors"] 1 "k"
    ["?", "7", "3"] "k" (some "Scissors") (some "Paper") (by decide) (by decide)

/-- Claim C8 fails for keys of different lengths: the pairs `("k", "Rock")` and `("kR", "ock")`
differ, yet `generateHMAC` passes the same message `kRock` to the hash for both, so the two
digests are equal whatever the hash is (here the identity stands for it). -/
theorem hmac_message_collision_counterexample :
    (("k", "Rock") : String × String) ≠ ("kR", "ock") ∧
      HMAC.message "k" (some "Rock") = HMAC.message "kR" (some "ock") ∧
      HMAC.generateHMAC (fun s => s) "k" (some "Rock") =
        HMAC.generateHMAC (fun s => s) "kR" (some "ock") := by
  decide

/-- Claim C8 as amended. For two different pairs `(key, move)` and `(key', move')` of strings
whose keys have the same length, `generateHMAC` passes different messages to `sha3_256`, so
the two digests can only be equal through a collision of the hash itself. -/
theorem hmac_message_injective (key key' move move' : String)
    (hlen : key.length = key'.length) (hne : (key, move) ≠ (key', move')) :
    HMAC.message key (some move) ≠ HMAC.message key' (some move') := by
  intro h
  apply hne
  unfold HMAC.message jsString at h
  have hd : key.data ++ move.data = key'.data ++ move'.data := by
    rw [← String.data_append, ← String.data_append, h]
  obtain ⟨h1, h2⟩ := List.append_inj hd hlen
  rw [String.ext h1, String.ext h2]

theorem hmac_message_injective_witness :
    HMAC.message "k1" (some "Rock") ≠ HMAC.message "k2" (some "Rock") :=
  hmac_message_injective "k1" "k2" "Rock" "Rock" (by decide) (by decide)

/-- Claim C9. In `startGame` the digest is computed from the key and the random draw alone and
is the first thing printed, before any line is read (with no input at all the run consists of
the digest and the menu); two runs with the same draw and key but different input lines
publish the same digest, and when both resolve they reveal the same computer move and the same
key. -/
theorem computer_move_fixed_before_input (sha3_256 : String → String)
    (toNumber : String → Option Rat) (args : List String) (draw : Nat) (key : String)
    (inputs₁ inputs₂ : List String) :
    (∃ rest₁ rest₂,
        startGame sha3_256 toNumber args draw key inputs₁ =
          Event.hmac (HMAC.generateHMAC sha3_256 key (ComputerMove.getMove args draw)) ::
            rest₁ ∧
        startGame sha3_256 toNumber args draw key inputs₂ =
          Event.hmac (HMAC.generateHMAC sha3_256 key (ComputerMove.getMove args draw)) ::
            rest₂ ∧
        (∀ d, Event.hmac d ∉ rest₁) ∧ (∀ d, Event.hmac d ∉ rest₂)) ∧
      startGame sha3_256 toNumber args draw key [] =
        [Event.hmac (HMAC.generateHMAC sha3_256 key (ComputerMove.getMove args draw)),
          Event.availableMoves] ∧
      ∀ (k₁ k₂ : String) (p₁ p₂ c₁ c₂ : Option String),
        Event.hmacKey k₁ ∈ startGame sha3_256 toNumber args draw key inputs₁ →
        Event.moves p₁ c₁ ∈ startGame sha3_256 toNumber args draw key inputs₁ →
        Event.hmacKey k₂ ∈ startGame sha3_256 toNumber args draw key inputs₂ →
        Event.moves p₂ c₂ ∈ startGame sha3_256 toNumber args draw key inputs₂ →
        c₁ = c₂ ∧ k₁ = k₂ ∧ c₁ = ComputerMove.getMove args draw ∧ k₁ = key := by
  refine ⟨⟨_, _, rfl, rfl, fun d => mem_gameLoop_hmac _ _ _ _ d _,
    fun d => mem_gameLoop_hmac _ _ _ _ d _⟩, rfl, ?_⟩
  intro k₁ k₂ p₁ p₂ c₁ c₂ hk₁ hm₁ hk₂ hm₂
  unfold startGame at hk₁ hm₁ hk₂ hm₂
  simp only [List.mem_cons, reduceCtorEq, false_or] at hk₁ hm₁ hk₂ hm₂
  have a₁ := mem_gameLoop_hmacKey _ _ _ _ _ _ hk₁
  have a₂ := mem_gameLoop_hmacKey _ _ _ _ _ _ hk₂
  have b₁ := mem_gameLoop_moves _ _ _ _ _ _ _ hm₁
  have b₂ := mem_gameLoop_moves _ _ _ _ _ _ _ hm₂
  subst a₁ a₂ b₁
  exact ⟨b₂.symm, rfl, rfl, rfl⟩

theorem computer_move_fixed_before_input_witness :
    Event.hmacKey "k" ∈
        startGame (fun s => s) digitsToNumber ["Rock", "Paper", "Scissors"] 1 "k" ["?", "3"] ∧
      Event.moves (some "Scissors") (some "Paper") ∈
        startGame (fun s => s) digitsToNumber ["Rock", "Paper", "Scissors"] 1 "k" ["?", "3"] ∧
      Event.hmacKey "k" ∈
        startGame (fun s => s) digitsToNumber ["Rock", "Paper", "Scissors"] 1 "k" ["9", "1"] ∧
      Event.moves (some "Rock") (some "Paper") ∈
        startGame (fun s => s) digitsToNumber ["Rock", "Paper", "Scissors"] 1 "k" ["9", "1"] ∧
      ((some "Paper" : Option String) = some "Paper" ∧ "k" = "k" ∧
        (some "Paper" : Option String) =
          ComputerMove.getMove ["Rock", "Paper", "Scissors"] 1 ∧ "k" = "k") :=
  ⟨by decide, by decide, by decide, by decide,
    (computer_move_fixed_before_input (fun s => s) digitsToNumber ["Rock", "Paper", "Scissors"]
      1 "k" ["?", "3"] ["9", "1"]).2.2 "k" "k" (some "Scissors") (some "Rock") (some "Paper")
      (some "Paper") (by decide) (by decide) (by decide) (by decide)⟩

/-! ## The relation matrix: claims C13 and C15 -/

theorem cell_winIndex (n i j : Nat) (hodd : n % 2 = 1) (hi : i < n) (hj1 : 1 ≤ j)
    (hj2 : j ≤ n / 2) : cell n i (winIndex n i j) = 1 := by
  rw [winIndex_eq n i j hi (by omega)]
  unfold cell cellUpTo offset
  split_ifs <;> omega

theorem cell_loseIndex (n i j : Nat) (hodd : n % 2 = 1) (hi : i < n) (hj1 : 1 ≤ j)
    (hj2 : j ≤ n / 2) : cell n i (loseIndex n i j) = -1 := by
  rw [loseIndex_eq n i j hi (by omega)]
  unfold cell cellUpTo offset
  split_ifs <;> omega

theorem winIndex_ne_loseIndex (n i j j' : Nat) (hodd : n % 2 = 1) (hi : i < n)
    (hj1 : 1 ≤ j) (hj2 : j ≤ n / 2) (hj1' : 1 ≤ j') (hj2' : j' ≤ n / 2) :
    winIndex n i j ≠ loseIndex n i j' := by
  rw [winIndex_eq n i j hi (by omega), loseIndex_eq n i j' hi (by omega)]
  split_ifs <;> omega

/-- Claim C13. For a move list of odd length `N`, an ordinal `i` below `N` and an offset `j` with
`1 ≤ j ≤ N / 2`, the finished matrix has `1` (WIN) at column `(i + j) % N` of row `i` and `-1`
(LOSE) at column `(i - j + N) % N`; no win write and lose write of row `i` hit the same cell, so
no write is overwritten by a different value. -/
theorem fillMatrix_ahead_behind (elements : List String) (hodd : elements.length % 2 = 1)
    (i j : Nat) (hi : i < elements.length) (hj1 : 1 ≤ j) (hj2 : j ≤ elements.length / 2) :
    entry (Table.new elements).filledMatrix i (winIndex elements.length i j) = some 1 ∧
      entry (Table.new elements).filledMatrix i (loseIndex elements.length i j) = some (-1) ∧
      ∀ j', 1 ≤ j' → j' ≤ elements.length / 2 →
        winIndex elements.length i j ≠ loseIndex elements.length i j' ∧
        loseIndex elements.length i j ≠ winIndex elements.length i j' := by
  have hw : winIndex elements.length i j < elements.length := winIndex_lt _ _ _ (by omega)
  have hl : loseIndex elements.length i j < elements.length :=
    loseIndex_lt _ _ _ hi (by omega)
  refine ⟨?_, ?_, fun j' h1 h2 => ⟨?_, ?_⟩⟩
  · rw [entry_filledMatrix elements i _ hi hw, cell_winIndex _ i j hodd hi hj1 hj2]
  · rw [entry_filledMatrix elements i _ hi hl, cell_loseIndex _ i j hodd hi hj1 hj2]
  · exact winIndex_ne_loseIndex _ i j j' hodd hi hj1 hj2 h1 h2
  · exact fun h => winIndex_ne_loseIndex _ i j' j hodd hi h1 h2 hj1 hj2 h.symm

theorem fillMatrix_ahead_behind_witness :
    (entry (Table.new ["Rock", "Spock", "Paper", "Lizard", "Scissors"]).filledMatrix 0 1 =
        some 1 ∧
      entry (Table.new ["Rock", "Spock", "Paper", "Lizard", "Scissors"]).filledMatrix 0 4 =
        some (-1)) ∧
    (entry (Table.new ["Rock", "Spock", "Paper", "Lizard", "Scissors"]).filledMatrix 0 2 =
        some 1 ∧
      entry (Table.new ["Rock", "Spock", "Paper", "Lizard", "Scissors"]).filledMatrix 0 3 =
        some (-1)) :=
  ⟨⟨(fillMatrix_ahead_behind ["Rock", "Spock", "Paper", "Lizard", "Scissors"] (by decide) 0 1
      (by decide) (by decide) (by decide)).1,
    (fillMatrix_ahead_behind ["Rock", "Spock", "Paper", "Lizard", "Scissors"] (by decide) 0 1
      (by decide) (by decide) (by decide)).2.1⟩,
   ⟨(fillMatrix_ahead_behind ["Rock", "Spock", "Paper", "Lizard", "Scissors"] (by decide) 0 2
      (by decide) (by decide) (by decide)).1,
    (fillMatrix_ahead_behind ["Rock", "Spock", "Paper", "Lizard", "Scissors"] (by decide) 0 2
      (by decide) (by decide) (by decide)).2.1⟩⟩

theorem succ_mod_eq (n i : Nat) (hi : i < n) :
    (i + 1) % n = if i + 1 < n then i + 1 else 0 := by
  split_ifs with h
  · exact Nat.mod_eq_of_lt h
  · have : i + 1 = n := by omega
    rw [this, Nat.mod_self]

theorem offset_succ_mod (n i k : Nat) (hi : i < n) (hk : k < n) :
    offset n ((i + 1) % n) ((k + 1) % n) = offset n i k := by
  rw [succ_mod_eq n i hi, succ_mod_eq n k hk]
  unfold offset
  split_ifs <;> omega

theorem cell_circulant (n i k : Nat) (hi : i < n) (hk : k < n) :
    cell n ((i + 1) % n) ((k + 1) % n) = cell n i k := by
  unfold cell cellUpTo
  rw [offset_succ_mod n i k hi hk]

theorem offset_eq_mod (n i k : Nat) (hi : i < n) (hk : k < n) :
    offset n i k = (k + n - i) % n := by
  unfold offset
  split_ifs with h
  · rw [show k + n - i = (k - i) + n by omega, Nat.add_mod_right]
    exact (Nat.mod_eq_of_lt (by omega)).symm
  · exact (Nat.mod_eq_of_lt (by omega)).symm

/-- Claim C15. For a list of any length `N ≥ 1`, odd or even, the matrix built by `fillMatrix` is
circulant: the cell at `((i + 1) % N, (j + 1) % N)` equals the cell at `(i, j)`, and any two
cells with the same `(j - i) mod N` are equal. -/
theorem fillMatrix_circulant (elements : List String) (hpos : 1 ≤ elements.length)
    (i j : Nat) (hi : i < elements.length) (hj : j < elements.length) :
    entry (Table.new elements).filledMatrix ((i + 1) % elements.length)
        ((j + 1) % elements.length) =
      entry (Table.new elements).filledMatrix i j ∧
    ∀ i' j', i' < elements.length → j' < elements.length →
      (j' + elements.length - i') % elements.length =
        (j + elements.length - i) % elements.length →
      entry (Table.new elements).filledMatrix i' j' =
        entry (Table.new elements).filledMatrix i j := by
  constructor
  · rw [entry_filledMatrix elements _ _ (Nat.mod_lt _ (by omega)) (Nat.mod_lt _ (by omega)),
      entry_filledMatrix elements i j hi hj, cell_circulant _ i j hi hj]
  · intro i' j' hi' hj' h
    rw [← offset_eq_mod _ i' j' hi' hj', ← offset_eq_mod _ i j hi hj] at h
    rw [entry_filledMatrix elements i' j' hi' hj', entry_filledMatrix elements i j hi hj]
    unfold cell cellUpTo
    rw [h]

theorem fillMatrix_circulant_witness :
    entry (Table.new ["a", "b", "c", "d"]).filledMatrix ((3 + 1) % 4) ((1 + 1) % 4) =
      entry (Table.new ["a", "b", "c", "d"]).filledMatrix 3 1 ∧
    ∀ i' j', i' < 4 → j' < 4 → (j' + 4 - i') % 4 = (1 + 4 - 3) % 4 →
      entry (Table.new ["a", "b", "c", "d"]).filledMatrix i' j' =
        entry (Table.new ["a", "b", "c", "d"]).filledMatrix 3 1 :=
  fillMatrix_circulant ["a", "b", "c", "d"] (by decide) 3 1 (by decide) (by decide)

/-! ## Name lookup and even lengths: claims C14 and C16 -/

theorem indexOf_getElem?_of_nodup (elements : List String) (hnodup : elements.Nodup)
    (p : Nat) (hp : p < elements.length) : indexOf elements elements[p]? = (p : Int) := by
  rw [List.getElem?_eq_getElem hp]
  obtain ⟨q, hq, hidx, hget⟩ := indexOf_mem elements elements[p] (List.getElem_mem hp)
  rw [List.getElem?_eq_getElem hq] at hget
  have hqp : q = p := (hnodup.getElem_inj_iff).mp (Option.some.inj hget)
  rw [hidx, hqp]

/-- Claim C14. For a duplicate-free move list and ordinals `p`, `c` below its length, the
constructor `new GameRules(elements, elements[p], elements[c])` does not throw, `indexOf`
recovers the ordinals `p` and `c`, the field `result` is the cell `filledMatrix[p][c]`, and
`getWinner` maps `0`, `1`, `-1` to the draw, win and lose messages. -/
theorem GameRules_result_eq_matrix (elements : List String) (hnodup : elements.Nodup)
    (p c : Nat) (hp : p < elements.length) (hc : c < elements.length) :
    (∃ g, GameRules.new elements elements[p]? elements[c]? = some g ∧
        g.indexPlayer = (p : Int) ∧ g.indexComputer = (c : Int) ∧
        g.result = entry (Table.new elements).filledMatrix p c ∧
        g.result.isSome) ∧
      ∀ g : GameRules,
        (g.result = some 0 → g.getWinner = DRAW_RESULT) ∧
        (g.result = some 1 → g.getWinner = WIN_RESULT) ∧
        (g.result = some (-1) → g.getWinner = LOSE_RESULT) := by
  constructor
  · refine ⟨_, GameRules_new_of_ordinals elements _ _ p c hp hc
      (indexOf_getElem?_of_nodup elements hnodup p hp)
      (indexOf_getElem?_of_nodup elements hnodup c hc), rfl, rfl, ?_, rfl⟩
    exact (entry_filledMatrix elements p c hp hc).symm
  · intro g
    refine ⟨fun h => ?_, fun h => ?_, fun h => ?_⟩ <;> simp [GameRules.getWinner, h]

theorem GameRules_result_eq_matrix_witness :
    (∃ g, GameRules.new ["Rock", "Paper", "Scissors"] ["Rock", "Paper", "Scissors"][2]?
          ["Rock", "Paper", "Scissors"][0]? = some g ∧
        g.indexPlayer = ((2 : Nat) : Int) ∧ g.indexComputer = ((0 : Nat) : Int) ∧
        g.result = entry (Table.new ["Rock", "Paper", "Scissors"]).filledMatrix 2 0 ∧
        g.result.isSome) ∧
      ∀ g : GameRules,
        (g.result = some 0 → g.getWinner = DRAW_RESULT) ∧
        (g.result = some 1 → g.getWinner = WIN_RESULT) ∧
        (g.result = some (-1) → g.getWinner = LOSE_RESULT) :=
  GameRules_result_eq_matrix ["Rock", "Paper", "Scissors"] (by decide) 2 0 (by decide)
    (by decide)

theorem cell_even_half (n i : Nat) (heven : n % 2 = 0) (h2 : 2 ≤ n) (hi : i < n) :
    cell n i (winIndex n i (n / 2)) = -1 ∧ cell n (winIndex n i (n / 2)) i = -1 := by
  rw [winIndex_eq n i (n / 2) hi (by omega)]
  unfold cell cellUpTo offset
  constructor <;> split_ifs <;> omega

theorem winIndex_eq_loseIndex_half (n i : Nat) (heven : n % 2 = 0) (h2 : 2 ≤ n) (hi : i < n) :
    winIndex n i (n / 2) = loseIndex n i (n / 2) := by
  rw [winIndex_eq n i (n / 2) hi (by omega), loseIndex_eq n i (n / 2) hi (by omega)]
  split_ifs <;> omega

/-- Claim C16. For a list of even length `N ≥ 2` and an ordinal `i` below `N`, with
`k = (i + N / 2) % N`: at offset `N / 2` the win index and the lose index are both `k`, the
lose write of that round replaces the `1` of the win write by `-1`, and the finished matrix has
`-1` both at `(i, k)` and at `(k, i)`, so antisymmetry fails. -/
theorem fillMatrix_even_contradictory (elements : List String)
    (heven : elements.length % 2 = 0) (h2 : 2 ≤ elements.length)
    (i : Nat) (hi : i < elements.length) :
    winIndex elements.length i (elements.length / 2) =
        (i + elements.length / 2) % elements.length ∧
      loseIndex elements.length i (elements.length / 2) =
        (i + elements.length / 2) % elements.length ∧
      (∀ m : List (List Int),
        (entry m i ((i + elements.length / 2) % elements.length)).isSome →
        entry (writeCell m i (winIndex elements.length i (elements.length / 2)) 1) i
            ((i + elements.length / 2) % elements.length) = some 1 ∧
          entry (Table.fillStep elements.length i m (elements.length / 2)) i
            ((i + elements.length / 2) % elements.length) = some (-1)) ∧
      entry (Table.new elements).filledMatrix i ((i + elements.length / 2) % elements.length) =
        some (-1) ∧
      entry (Table.new elements).filledMatrix ((i + elements.length / 2) % elements.length) i =
        some (-1) ∧
      ¬ (entry (Table.new elements).filledMatrix i
            ((i + elements.length / 2) % elements.length) = some 1 ↔
          entry (Table.new elements).filledMatrix
            ((i + elements.length / 2) % elements.length) i = some (-1)) := by
  have hwl := winIndex_eq_loseIndex_half elements.length i heven h2 hi
  have hk : (i + elements.length / 2) % elements.length < elements.length :=
    Nat.mod_lt _ (by omega)
  have hc := cell_even_half elements.length i heven h2 hi
  have e1 := entry_filledMatrix elements i _ hi hk
  have e2 := entry_filledMatrix elements _ i hk hi
  have hw : winIndex elements.length i (elements.length / 2) =
      (i + elements.length / 2) % elements.length := rfl
  rw [hw] at hc hwl
  rw [hc.1] at e1
  rw [hc.2] at e2
  refine ⟨rfl, hwl.symm, ?_, e1, e2, ?_⟩
  · intro m hm
    constructor
    · rw [entry_writeCell]
      simp [hw, hm]
    · rw [entry_fillStep elements.length i _ m _ _ (by rw [hw]; exact hm)
        (by rw [← hwl]; exact hm)]
      simp [← hwl]
  · rw [e1, e2]
    simp

theorem fillMatrix_even_contradictory_witness :
    entry (Table.new ["a", "b", "c", "d"]).filledMatrix 1 3 = some (-1) ∧
      entry (Table.new ["a", "b", "c", "d"]).filledMatrix 3 1 = some (-1) :=
  ⟨(fillMatrix_even_contradictory ["a", "b", "c", "d"] (by decide) (by decide) 1
      (by decide)).2.2.2.1,
   (fillMatrix_even_contradictory ["a", "b", "c", "d"] (by decide) (by decide) 1
      (by decide)).2.2.2.2.1⟩

/-! ## The selection: claims C17 and C11 -/

theorem jsIndexMinusOne_natCast {α : Type} (l : List α) (k : Nat) (hk : 1 ≤ k) :
    jsIndexMinusOne l (some (k : Rat)) = l[k - 1]? := by
  have h1 : (1 : Rat) ≤ (k : Rat) := by exact_mod_cast hk
  have h2 : ((k : Rat)).isInt = true := by simp [Rat.isInt]
  have h3 : (((k : Rat)).num - 1).toNat = k - 1 := by
    rw [Rat.num_natCast]
    omega
  simp only [jsIndexMinusOne, h1, h2, h3, and_self, if_true]

theorem cell_values (n i k : Nat) : cell n i k = 0 ∨ cell n i k = 1 ∨ cell n i k = -1 := by
  unfold cell cellUpTo
  split_ifs <;> simp

/-- Claim C17. When `isValid args` holds, the line read converts to an integer `k` with
`1 ≤ k ≤ args.length` and the random draw is below `args.length`, the constructor of
`GameRules` does not throw, both indices lie in `[0, N - 1]` (they are `k - 1` and the draw),
the value read is the matrix cell at these indices and is one of `0`, `1`, `-1`, and
`printGameResult` prints the two moves, the message and the key. -/
theorem GameRules_lookup_in_range (toNumber : String → Option Rat) (args : List String)
    (line : String) (k draw : Nat) (hvalid : isValid args = true)
    (hline : toNumber line = some (k : Rat)) (hk1 : 1 ≤ k) (hk2 : k ≤ args.length)
    (hdraw : draw < args.length) (hmacKey : String) :
    ∃ g, GameRules.new args (jsIndexMinusOne args (toNumber line))
          (ComputerMove.getMove args draw) = some g ∧
      (0 ≤ g.indexPlayer ∧ g.indexPlayer < (args.length : Int)) ∧
      (0 ≤ g.indexComputer ∧ g.indexComputer < (args.length : Int)) ∧
      g.indexPlayer = ((k - 1 : Nat) : Int) ∧ g.indexComputer = (draw : Int) ∧
      g.result = entry g.matrix (k - 1) draw ∧
      (g.result = some 0 ∨ g.result = some 1 ∨ g.result = some (-1)) ∧
      printGameResult toNumber args line (ComputerMove.getMove args draw) hmacKey =
        [Event.moves args[k - 1]? args[draw]?, Event.winner g.getWinner,
          Event.hmacKey hmacKey] := by
  have hnodup : args.Nodup := ((isValid_eq_true_iff args).mp hvalid).2
  have hp : k - 1 < args.length := by omega
  have hpm : jsIndexMinusOne args (toNumber line) = args[k - 1]? := by
    rw [hline, jsIndexMinusOne_natCast args k hk1]
  have hnew := GameRules_new_of_ordinals args args[k - 1]? args[draw]? (k - 1) draw hp hdraw
    (indexOf_getElem?_of_nodup args hnodup (k - 1) hp)
    (indexOf_getElem?_of_nodup args hnodup draw hdraw)
  refine ⟨_, by rw [hpm]; exact hnew, ⟨by simp, by simp; omega⟩,
    ⟨by simp, by simp; omega⟩, rfl, rfl, ?_, ?_, ?_⟩
  · exact (entry_filledMatrix args (k - 1) draw hp hdraw).symm
  · rcases cell_values args.length (k - 1) draw with h | h | h <;> simp [h]
  · simp only [printGameResult, hpm, ComputerMove.getMove, hnew]

theorem GameRules_lookup_in_range_witness :
    ∃ g, GameRules.new ["Rock", "Paper", "Scissors"]
          (jsIndexMinusOne ["Rock", "Paper", "Scissors"] (decimalToNumber "3"))
          (ComputerMove.getMove ["Rock", "Paper", "Scissors"] 1) = some g ∧
      (0 ≤ g.indexPlayer ∧ g.indexPlayer < ((["Rock", "Paper", "Scissors"].length : Nat) : Int)) ∧
      (0 ≤ g.indexComputer ∧
        g.indexComputer < ((["Rock", "Paper", "Scissors"].length : Nat) : Int)) ∧
      g.indexPlayer = ((3 - 1 : Nat) : Int) ∧ g.indexComputer = ((1 : Nat) : Int) ∧
      g.result = entry g.matrix (3 - 1) 1 ∧
      (g.result = some 0 ∨ g.result = some 1 ∨ g.result = some (-1)) ∧
      printGameResult decimalToNumber ["Rock", "Paper", "Scissors"] "3"
          (ComputerMove.getMove ["Rock", "Paper", "Scissors"] 1) "key" =
        [Event.moves ["Rock", "Paper", "Scissors"][3 - 1]? ["Rock", "Paper", "Scissors"][1]?,
          Event.winner g.getWinner, Event.hmacKey "key"] :=
  GameRules_lookup_in_range decimalToNumber ["Rock", "Paper", "Scissors"] "3" 3 1 (by decide)
    (by decide) (by decide) (by decide) (by decide) "key"

/-- Claim C11, evaluated on the code. The line `1.5` is neither command, converts to the number
`3/2`, which is not an integer, and passes the guard of `startGame` for a list of three moves;
`printGameResult` is called, `args[0.5]` is `undefined` and the constructor of `GameRules`
throws, so the run ends in an uncaught `TypeError` without the error message and without
reading the next line. The out-of-range line `7` does print the error message and the loop
goes on to the next line. -/
theorem startGame_fraction_line :
    decimalToNumber "1.5" = some (mkRat 3 2) ∧
      (mkRat 3 2).isInt = false ∧
      "1.5" ≠ EXIT_COMMAND ∧ "1.5" ≠ HELP_COMMAND ∧
      moveGuard decimalToNumber ["Rock", "Paper", "Scissors"] "1.5" = true ∧
      printGameResult decimalToNumber ["Rock", "Paper", "Scissors"] "1.5" (some "Paper") "k" =
        [Event.typeError] ∧
      startGame (fun s => s) decimalToNumber ["Rock", "Paper", "Scissors"] 1 "k" ["1.5", "1"] =
        [Event.hmac "kPaper", Event.availableMoves, Event.question "1.5", Event.typeError] ∧
      startGame (fun s => s) decimalToNumber ["Rock", "Paper", "Scissors"] 1 "k" ["7", "1"] =
        [Event.hmac "kPaper", Event.availableMoves, Event.question "7", Event.error,
          Event.availableMoves, Event.question "1",
          Event.moves (some "Rock") (some "Paper"), Event.winner "You Win!",
          Event.hmacKey "k"] := by
  decide

end RPS
